import Mathlib

set_option maxRecDepth 10000

/-!
Verification of the beatmap-file parser and highlight/progress engine of the
mosu repository.  The JavaScript source has two parallel implementations: a
split-based parser in the renderer (parseHitObjects, parseBreakPeriods,
parseBookmarks, parseBackgroundFilename, getTiming) and a single-pass parser
in the worker (parseOsuFile with its helpers parseHitObject, getTimingInfo,
parseEventLine, parseEditorLine, fastParseInt, isImageExtension), plus the
highlight-range builders and the progress calculator.  JavaScript numbers are
modelled as Option Rat, with none standing for NaN; machine-typed array
stores (Int32Array, Int16Array) are modelled by explicit signed wrap-around
conversions.
-/

namespace Mosu

/-- JavaScript numbers: `none` models NaN (Infinity does not arise in the
fragments modelled here and is not represented). -/
abbrev JSNum := Option ℚ

/-- JS addition; NaN propagates. -/
def jadd : JSNum → JSNum → JSNum
  | some a, some b => some (a + b)
  | _, _ => none

/-- JS multiplication; NaN propagates. -/
def jmul : JSNum → JSNum → JSNum
  | some a, some b => some (a * b)
  | _, _ => none

/-- JS division; NaN propagates.  Division by zero cannot occur at the call
sites modelled here (denominators are checked or provably nonzero), so it is
mapped to NaN as well. -/
def jdiv : JSNum → JSNum → JSNum
  | some a, some b => if b = 0 then none else some (a / b)
  | _, _ => none

/-- JS Math.floor; NaN propagates. -/
def jfloor : JSNum → JSNum
  | some a => some ((⌊a⌋ : ℤ) : ℚ)
  | none => none

/-- JS Math.max on two arguments; NaN propagates. -/
def jmax : JSNum → JSNum → JSNum
  | some a, some b => some (max a b)
  | _, _ => none

/-- JS comparison a < b: false when either side is NaN. -/
def jlt : JSNum → JSNum → Bool
  | some a, some b => decide (a < b)
  | _, _ => false

/-- JS comparison a > b: false when either side is NaN. -/
def jgt : JSNum → JSNum → Bool
  | some a, some b => decide (b < a)
  | _, _ => false

/-- JS comparison a >= b: false when either side is NaN. -/
def jge : JSNum → JSNum → Bool
  | some a, some b => decide (b ≤ a)
  | _, _ => false

/-- JS `x || fallback` on numbers: the fallback is taken when x is NaN or 0. -/
def jsOr (x fallback : JSNum) : JSNum :=
  match x with
  | some a => if a = 0 then fallback else some a
  | none => fallback

/-- Truncation toward zero, as used by the JS ToInt32 conversion. -/
def jtrunc (q : ℚ) : ℤ := if 0 ≤ q then ⌊q⌋ else ⌈q⌉

/-- JS ToInt32: NaN goes to 0, other values are truncated and wrapped into
the signed 32-bit range.  This is what storing into an Int32Array does. -/
def toInt32 : JSNum → ℤ
  | none => 0
  | some q =>
      let m := jtrunc q % 4294967296
      if m < 2147483648 then m else m - 4294967296

/-- JS ToInt16, the conversion applied by an Int16Array store. -/
def toInt16 : JSNum → ℤ
  | none => 0
  | some q =>
      let m := jtrunc q % 65536
      if m < 32768 then m else m - 65536

/-- The unsigned 32-bit image of an integer (two's complement view). -/
def toUint32 (n : ℤ) : ℕ := (n % 4294967296).toNat

/-- JS bitwise AND of a number against a small mask (as in `type & 2`):
the number is first converted with ToInt32. -/
def jsBitAnd (x : JSNum) (m : ℕ) : ℕ := Nat.land (toUint32 (toInt32 x)) m

/-- JS bitwise AND of an already-integral value against a small mask. -/
def intBitAnd (n : ℤ) (m : ℕ) : ℕ := Nat.land (toUint32 n) m

/-! ### Characters and strings -/

/-- The JS whitespace class used by String.prototype.trim, parseInt and
parseFloat (space, tab, LF, CR, VT, FF, NBSP, BOM). -/
def isJsSpace (c : Char) : Bool :=
  c == ' ' || c == '\t' || c == '\n' || c == '\r' || c == Char.ofNat 11 ||
  c == Char.ofNat 12 || c == Char.ofNat 160 || c == Char.ofNat 65279

/-- Space-or-tab, the only whitespace the worker's index-based trimming and
fastParseInt skip. -/
def isSTab (c : Char) : Bool := c == ' ' || c == '\t'

/-- Drop characters satisfying p from both ends of a character list. -/
def trimChars (p : Char → Bool) (l : List Char) : List Char :=
  ((l.dropWhile p).reverse.dropWhile p).reverse

/-- JS String.prototype.trim. -/
def jsTrim (s : String) : String := ⟨trimChars isJsSpace s.data⟩

/-- The worker's extractTrimmed / in-place line trimming: strips only space
and tab from both ends. -/
def wTrim (s : String) : String := ⟨trimChars isSTab s.data⟩

/-- ASCII lower-casing, as performed by toLowerCase / matchesAt on the
ASCII section names and tokens compared in this code. -/
def jsToLower (s : String) : String :=
  ⟨s.data.map (fun c => if 'A' ≤ c ∧ c ≤ 'Z' then Char.ofNat (c.toNat + 32) else c)⟩

/-- Split a character list on a separator character (JS String.split with a
one-character separator: an empty input gives one empty field, separators at
the ends give empty fields). -/
def splitChar (c : Char) : List Char → List Char → List (List Char)
  | [], acc => [acc.reverse]
  | x :: xs, acc =>
      if x = c then acc.reverse :: splitChar c xs []
      else splitChar c xs (x :: acc)

/-- JS s.split(sep) for a one-character separator. -/
def jsSplit (s : String) (c : Char) : List String :=
  (splitChar c s.data []).map (fun l => ⟨l⟩)

/-- The renderer's line splitting, content.split on the pattern CR?LF:
a LF terminates a line and consumes one immediately preceding CR; a lone CR
does not terminate a line. -/
def splitLinesRAux : List Char → List Char → List String
  | [], acc => [⟨acc.reverse⟩]
  | x :: xs, acc =>
      if x = '\n' then
        (match acc with
         | '\r' :: acc2 => (⟨acc2.reverse⟩ : String)
         | a => ⟨a.reverse⟩) :: splitLinesRAux xs []
      else splitLinesRAux xs (x :: acc)

/-- Renderer line splitting over a whole file. -/
def splitLinesR (s : String) : List String := splitLinesRAux s.data []

/-- The worker's line scanning: lines are terminated by LF, CR, or CRLF, and
a leading byte-order-mark is skipped.  (The worker scans by index; the line
segments it isolates are exactly these.) -/
def splitLinesWAux : List Char → List Char → List String
  | [], acc => [⟨acc.reverse⟩]
  | '\r' :: '\n' :: xs, acc => ⟨acc.reverse⟩ :: splitLinesWAux xs []
  | '\r' :: xs, acc => ⟨acc.reverse⟩ :: splitLinesWAux xs []
  | '\n' :: xs, acc => ⟨acc.reverse⟩ :: splitLinesWAux xs []
  | x :: xs, acc => splitLinesWAux xs (x :: acc)

/-- Worker line splitting over a whole file, skipping a leading BOM. -/
def splitLinesW (s : String) : List String :=
  splitLinesWAux
    (match s.data with
     | c :: rest => if c = Char.ofNat 65279 then rest else c :: rest
     | [] => []) []

/-! ### Numeric parsing -/

/-- Consume a leading run of decimal digits, returning the accumulated value,
the digit count and the rest. -/
def grabDigits : List Char → ℕ → ℕ → ℕ × ℕ × List Char
  | c :: rest, v, n =>
      if c.isDigit then grabDigits rest (v * 10 + (c.toNat - 48)) (n + 1)
      else (v, n, c :: rest)
  | [], v, n => (v, n, [])

/-- Consume a leading run of hexadecimal digits. -/
def grabHexDigits : List Char → ℕ → ℕ → ℕ × ℕ × List Char
  | c :: rest, v, n =>
      if c.isDigit then grabHexDigits rest (v * 16 + (c.toNat - 48)) (n + 1)
      else if 'a' ≤ c ∧ c ≤ 'f' then grabHexDigits rest (v * 16 + (c.toNat - 87)) (n + 1)
      else if 'A' ≤ c ∧ c ≤ 'F' then grabHexDigits rest (v * 16 + (c.toNat - 55)) (n + 1)
      else (v, n, c :: rest)
  | [], v, n => (v, n, [])

/-- Shared digit phase of parseInt after sign handling: radix-10 digits, or a
0x/0X-prefixed hexadecimal literal when hex is enabled (parseInt called with
no radix argument enables hex detection). -/
def parseIntDigits (hex : Bool) (l : List Char) : Option ℕ :=
  match l with
  | '0' :: x :: rest =>
      if hex ∧ (x = 'x' ∨ x = 'X') then
        (match grabHexDigits rest 0 0 with
         | (v, n, _) => if n = 0 then none else some v)
      else
        (match grabDigits l 0 0 with
         | (v, n, _) => if n = 0 then none else some v)
  | _ =>
      (match grabDigits l 0 0 with
       | (v, n, _) => if n = 0 then none else some v)

/-- Core of JS parseInt: skip whitespace, optional sign, digits; NaN when no
digit is found. -/
def jsParseIntCore (hex : Bool) (l : List Char) : Option ℤ :=
  match l.dropWhile isJsSpace with
  | '-' :: r => (parseIntDigits hex r).map (fun n => -(n : ℤ))
  | '+' :: r => (parseIntDigits hex r).map (fun n => (n : ℤ))
  | r => (parseIntDigits hex r).map (fun n => (n : ℤ))

/-- JS parseInt(s) with no radix argument (hex detection enabled), as a
JS number. -/
def jsParseInt (s : String) : JSNum :=
  (jsParseIntCore true s.data).map (fun z => (z : ℚ))

/-- JS parseInt(s, 10), as an integer option (used where the source also
checks Number.isFinite on the result). -/
def jsParseInt10 (s : String) : Option ℤ := jsParseIntCore false s.data

/-- The worker's fastParseInt on a field: skips only space/tab, optional
sign, decimal digits, null when no digit; trailing junk is ignored. -/
def fastParseInt (s : String) : Option ℤ :=
  match s.data.dropWhile isSTab with
  | '-' :: r =>
      (match grabDigits r 0 0 with
       | (v, n, _) => if n = 0 then none else some (-(v : ℤ)))
  | '+' :: r =>
      (match grabDigits r 0 0 with
       | (v, n, _) => if n = 0 then none else some ((v : ℤ)))
  | r =>
      (match grabDigits r 0 0 with
       | (v, n, _) => if n = 0 then none else some ((v : ℤ)))

/-- JS parseFloat: whitespace, optional sign, decimal digits with optional
fraction and exponent; NaN when no digit is found; trailing junk is ignored.
(The Infinity literal is not modelled.) -/
def jsParseFloat (s : String) : JSNum :=
  let l := s.data.dropWhile isJsSpace
  let sl : ℚ × List Char :=
    match l with
    | '-' :: r => (-1, r)
    | '+' :: r => (1, r)
    | r => (1, r)
  match grabDigits sl.2 0 0 with
  | (iv, ic, l2) =>
    let fr : ℕ × ℕ × List Char :=
      match l2 with
      | '.' :: r => grabDigits r 0 0
      | r => (0, 0, r)
    match fr with
    | (fv, fc, l3) =>
      if ic + fc = 0 then none
      else
        let mant : ℚ := (iv : ℚ) + (fv : ℚ) / (10 : ℚ) ^ fc
        let expv : ℤ :=
          match l3 with
          | 'e' :: r | 'E' :: r =>
            (match r with
             | '-' :: r2 =>
                 (match grabDigits r2 0 0 with
                  | (ev, ec, _) => if ec = 0 then 0 else -(ev : ℤ))
             | '+' :: r2 =>
                 (match grabDigits r2 0 0 with
                  | (ev, ec, _) => if ec = 0 then 0 else (ev : ℤ))
             | r2 =>
                 (match grabDigits r2 0 0 with
                  | (ev, ec, _) => if ec = 0 then 0 else (ev : ℤ)))
          | _ => 0
        some (if 0 ≤ expv then sl.1 * mant * (10 : ℚ) ^ expv.toNat
              else sl.1 * mant / (10 : ℚ) ^ (-expv).toNat)

/-! ### Timing points and the two timing resolvers -/

/-- A parsed timing point: time and beatLength come from parseInt/parseFloat
(so they may be NaN), uninherited from comparing field 7 against the string
one (defaulting to uninherited when the field is absent). -/
structure TimingPoint where
  time : JSNum
  beatLength : JSNum
  uninherited : Bool
deriving DecidableEq

/-- Result of a timing resolution: active beat length and scroll velocity. -/
structure TimingInfo where
  beatLength : JSNum
  sv : JSNum
deriving DecidableEq

/-- Loop body of the renderer's getTiming: scan in encounter order, stop at
the first point whose time exceeds the query; an uninherited point resets
beat length and scroll velocity, an inherited point updates scroll velocity
only when its beatLength is negative. -/
def getTimingGo (time : JSNum) : List TimingPoint → JSNum → JSNum → TimingInfo
  | [], bpm, sv => ⟨bpm, sv⟩
  | tp :: rest, bpm, sv =>
      if jgt tp.time time then ⟨bpm, sv⟩
      else if tp.uninherited then getTimingGo time rest tp.beatLength (some 1)
      else if jlt tp.beatLength (some 0) then
        getTimingGo time rest bpm (jdiv (some (-100)) tp.beatLength)
      else getTimingGo time rest bpm sv

/-- The renderer's getTiming (defined inside parseHitObjects). -/
def getTiming (time : JSNum) (timingPoints : List TimingPoint) : TimingInfo :=
  getTimingGo time timingPoints (some (60000 / 120)) (some 1)

/-- Loop body of the worker's getTimingInfo: identical to getTimingGo except
that an inherited point with non-negative beatLength resets scroll velocity
to 1.0 instead of leaving it unchanged. -/
def getTimingInfoGo (time : JSNum) : List TimingPoint → JSNum → JSNum → TimingInfo
  | [], bpm, sv => ⟨bpm, sv⟩
  | tp :: rest, bpm, sv =>
      if jgt tp.time time then ⟨bpm, sv⟩
      else if tp.uninherited then getTimingInfoGo time rest tp.beatLength (some 1)
      else if jlt tp.beatLength (some 0) then
        getTimingInfoGo time rest bpm (jdiv (some (-100)) tp.beatLength)
      else getTimingInfoGo time rest bpm (some 1)

/-- The worker's getTimingInfo. -/
def getTimingInfo (time : JSNum) (timingPoints : List TimingPoint) : TimingInfo :=
  getTimingInfoGo time timingPoints (some (60000 / 120)) (some 1)

/-! ### Hit objects -/

/-- A hit object as pushed by both parsers: start = time, stop = the JS end
time Math.max(time, endTime), type = the raw parsed type field.  stop embeds
the source's end field. -/
structure RawObj where
  start : JSNum
  stop : JSNum
  type : JSNum
deriving DecidableEq

/-- The object built from an accepted hit-object line (at least four comma
fields): time and type from fields 3 and 4; slider (bit 1), spinner (bit 3)
and hold (bit 7) end-time rules; the pushed end is Math.max(time, endTime). -/
def hitObjectCore (resolver : JSNum → List TimingPoint → TimingInfo)
    (parts : List String) (sliderMultiplier : JSNum)
    (timingPoints : List TimingPoint) : RawObj :=
  let time := jsParseInt (parts.getD 2 "")
  let type := jsParseInt (parts.getD 3 "")
  let endTime :=
    if jsBitAnd type 2 ≠ 0 then
      (if parts.length ≥ 8 then
        let slides := jsOr (jsParseInt (parts.getD 6 "")) (some 1)
        let len := jsOr (jsParseFloat (parts.getD 7 "")) (some 0)
        let timing := resolver time timingPoints
        let duration :=
          jmul (jmul (jdiv len (jmul (jmul sliderMultiplier (some 100)) timing.sv))
            timing.beatLength) slides
        jadd time (jmax (some 0) (jfloor duration))
      else time)
    else if jsBitAnd type 8 ≠ 0 then
      (if parts.length ≥ 6 then jsOr (jsParseInt (parts.getD 5 "")) time else time)
    else if jsBitAnd type 128 ≠ 0 then
      (if parts.length ≥ 6 then
        jsOr (jsParseInt ((jsSplit (parts.getD 5 "") ':').getD 0 "")) time
      else time)
    else time
  ⟨time, jmax time endTime, type⟩

/-- The per-line hit-object computation shared by both parsers, parameterised
by the timing resolver in use; lines with fewer than four comma fields are
rejected. -/
def hitObjectOfLine (resolver : JSNum → List TimingPoint → TimingInfo)
    (line : String) (sliderMultiplier : JSNum) (timingPoints : List TimingPoint) :
    Option RawObj :=
  if (jsSplit line ',').length < 4 then none
  else some (hitObjectCore resolver (jsSplit line ',') sliderMultiplier timingPoints)

/-- The worker's parseHitObject, which uses getTimingInfo. -/
def parseHitObject (line : String) (sliderMultiplier : JSNum)
    (timingPoints : List TimingPoint) : Option RawObj :=
  hitObjectOfLine getTimingInfo line sliderMultiplier timingPoints

/-- The hit-object branch of the renderer's parseHitObjects loop, which uses
the local getTiming. -/
def hitObjectLineR (line : String) (sliderMultiplier : JSNum)
    (timingPoints : List TimingPoint) : Option RawObj :=
  hitObjectOfLine getTiming line sliderMultiplier timingPoints

/-! ### The renderer's parseHitObjects

The loop keeps a section name, the slider multiplier, the timing points
seen so far, and the three parallel arrays; the arrays are accumulated in
reverse (newest first) and reversed at the end.  The per-line control
computation (section switching, difficulty and timing-point accumulation,
and the optional hit object produced) is shared between parseHitObjects and
the gap-fill-free projection used to state theorems about it. -/

/-- The inner text of a section header line, trimmed.slice(1, -1). -/
def sliceInner (s : String) : String := ⟨(s.data.drop 1).dropLast⟩

/-- First-colon split: JS indexOf followed by two slices; none when the
character does not occur. -/
def splitFirst (s : String) (c : Char) : Option (String × String) :=
  let pre := s.data.takeWhile (fun x => x ≠ c)
  if pre.length = s.data.length then none
  else some (⟨pre⟩, ⟨(s.data.drop (pre.length + 1))⟩)

/-- Per-line control effect of the renderer's parseHitObjects loop: the new
section, slider multiplier and timing-point list, plus the hit object pushed
by this line, if any. -/
def lineCtrlR (sect : String) (sm : JSNum) (tps : List TimingPoint)
    (line : String) : String × JSNum × List TimingPoint × Option RawObj :=
  let trimmed := jsTrim line
  if trimmed = "" ∨ trimmed.startsWith "//" then (sect, sm, tps, none)
  else if trimmed.startsWith "[" ∧ trimmed.endsWith "]" then
    (jsToLower (sliceInner trimmed), sm, tps, none)
  else if sect = "difficulty" then
    (match splitFirst trimmed ':' with
     | some (k, v) =>
         if jsToLower (jsTrim k) = "slidermultiplier" then
           (sect, jsOr (jsParseFloat v) (some 1), tps, none)
         else (sect, sm, tps, none)
     | none => (sect, sm, tps, none))
  else if sect = "timingpoints" then
    let parts := jsSplit trimmed ','
    if parts.length ≥ 2 then
      (sect, sm, tps ++ [⟨jsParseInt (parts.getD 0 ""), jsParseFloat (parts.getD 1 ""),
        if parts.length > 6 then parts.getD 6 "" = "1" else true⟩], none)
    else (sect, sm, tps, none)
  else if sect = "hitobjects" then
    (sect, sm, tps, hitObjectLineR trimmed sm tps)
  else (sect, sm, tps, none)

/-- State of the renderer's parseHitObjects loop; the arrays are reversed. -/
structure RState where
  sect : String
  sliderMultiplier : JSNum
  timingPoints : List TimingPoint
  hitStarts : List JSNum
  hitEnds : List JSNum
  hitTypes : List JSNum

/-- One line of the renderer's parseHitObjects: control effect plus, on a
push, the gap-fill correction of the previous end (raised to the new start
when the previous type has the slider bit) and the push itself. -/
def parseHitObjectsStep (st : RState) (line : String) : RState :=
  match lineCtrlR st.sect st.sliderMultiplier st.timingPoints line with
  | (sect, sm, tps, none) =>
      { st with sect := sect, sliderMultiplier := sm, timingPoints := tps }
  | (sect, sm, tps, some o) =>
      let ends :=
        match st.hitEnds, st.hitTypes with
        | e :: er, t :: _ =>
            (if jsBitAnd t 2 ≠ 0 then jmax e o.start else e) :: er
        | e, _ => e
      { sect := sect, sliderMultiplier := sm, timingPoints := tps,
        hitStarts := o.start :: st.hitStarts,
        hitEnds := o.stop :: ends,
        hitTypes := o.type :: st.hitTypes }

/-- The renderer's parseHitObjects: fold the loop over the split lines and
return the hitStarts and hitEnds arrays in file order. -/
def parseHitObjects (content : String) : List JSNum × List JSNum :=
  let st := (splitLinesR content).foldl parseHitObjectsStep ⟨"", some 1, [], [], [], []⟩
  (st.hitStarts.reverse, st.hitEnds.reverse)

/-- Projection state: like RState but accumulating the raw pushed objects
(reversed) instead of the gap-filled arrays. -/
structure RStateRaw where
  sect : String
  sliderMultiplier : JSNum
  timingPoints : List TimingPoint
  raws : List RawObj

/-- Gap-fill-free projection of the renderer loop. -/
def rawStepR (st : RStateRaw) (line : String) : RStateRaw :=
  match lineCtrlR st.sect st.sliderMultiplier st.timingPoints line with
  | (sect, sm, tps, none) =>
      { st with sect := sect, sliderMultiplier := sm, timingPoints := tps }
  | (sect, sm, tps, some o) =>
      ⟨sect, sm, tps, o :: st.raws⟩

/-- The raw (pre-gap-fill) hit-object records of a file, newest first. -/
def rawObjsRevR (content : String) : List RawObj :=
  ((splitLinesR content).foldl rawStepR ⟨"", some 1, [], []⟩).raws

/-- The raw hit-object records of a file, in file order: starts, computed
ends, and types before the slider gap-fill correction. -/
def rawObjsR (content : String) : List RawObj := (rawObjsRevR content).reverse

/-- Gap-fill adjustment of one object b by its in-file successor: when b has
the slider type bit, its end is raised to the successor's start. -/
def adjR (b succ : RawObj) : JSNum :=
  if jsBitAnd b.type 2 ≠ 0 then jmax b.stop succ.start else b.stop

/-- Generic gap fill over a reversed (newest-first) raw list: each older
object is adjusted by the next newer one via adj; the newest keeps its
unadjusted value fin. -/
def gfAuxG (adj : RawObj → RawObj → α) (succ : RawObj) : List RawObj → List α
  | [] => []
  | b :: r => adj b succ :: gfAuxG adj b r

/-- Generic gap fill, reversed orientation. -/
def gfRevG (adj : RawObj → RawObj → α) (fin : RawObj → α) : List RawObj → List α
  | [] => []
  | a :: rest => fin a :: gfAuxG adj a rest

/-- Generic gap fill in file order: each object with a successor is adjusted
by it, the last object keeps its unadjusted value. -/
def gapFillG (adj : RawObj → RawObj → α) (fin : RawObj → α) : List RawObj → List α
  | [] => []
  | a :: rest =>
      (match rest with
       | [] => fin a
       | b :: _ => adj a b) :: gapFillG adj fin rest

/-- Generic gap fill in file order with a known final successor k: every
element is adjusted, the last one by k. -/
def gapFillKG (adj : RawObj → RawObj → α) : List RawObj → RawObj → List α
  | [], _ => []
  | a :: rest, k =>
      (match rest with
       | [] => adj a k
       | b :: _ => adj a b) :: gapFillKG adj rest k

/-- The renderer's gap-filled end times, reversed orientation. -/
def gfRevR : List RawObj → List JSNum := gfRevG adjR RawObj.stop

/-- The renderer's gap-filled end times in file order: each object with a
successor is adjusted by it, the last object keeps its raw end. -/
def gapFillEnds : List RawObj → List JSNum := gapFillG adjR RawObj.stop

/-! ### The renderer's Events/Editor parsers -/

/-- One line of the renderer's parseBreakPeriods: tracks whether the exact
header [Events] is active; comma-split with per-field trimming; the first
field must be 2 or (case-insensitively) break; start and end are
parseInt(-, 10) values and the pair is recorded only when both are finite
and end > start.  Breaks accumulate in reverse. -/
def parseBreakPeriodsStep (st : Bool × List (ℤ × ℤ)) (line : String) :
    Bool × List (ℤ × ℤ) :=
  let trimmed := jsTrim line
  if trimmed = "" then st
  else if trimmed.startsWith "[" ∧ trimmed.endsWith "]" then
    (trimmed = "[Events]", st.2)
  else if ¬ st.1 ∨ trimmed.startsWith "//" then st
  else
    let parts := (jsSplit trimmed ',').map jsTrim
    if parts.length < 3 then st
    else
      let typeToken := parts.getD 0 ""
      if typeToken ≠ "2" ∧ jsToLower typeToken ≠ "break" then st
      else
        match jsParseInt10 (parts.getD 1 ""), jsParseInt10 (parts.getD 2 "") with
        | some s, some e => if s < e then (st.1, (s, e) :: st.2) else st
        | _, _ => st

/-- The renderer's parseBreakPeriods. -/
def parseBreakPeriods (content : String) : List (ℤ × ℤ) :=
  ((splitLinesR content).foldl parseBreakPeriodsStep (false, [])).2.reverse

/-- The renderer's parseBookmarks: scan for the [Editor] section and return
from the first Bookmarks: line the comma-separated integers, each token
trimmed and parsed with parseInt(-, 10), dropping non-finite results; an
empty value returns the empty list immediately. -/
def parseBookmarksGo : List String → Bool → List ℤ
  | [], _ => []
  | line :: rest, inEditor =>
      let trimmed := jsTrim line
      if trimmed = "" then parseBookmarksGo rest inEditor
      else if trimmed.startsWith "[" ∧ trimmed.endsWith "]" then
        parseBookmarksGo rest (trimmed = "[Editor]")
      else if ¬ inEditor then parseBookmarksGo rest inEditor
      else if trimmed.startsWith "Bookmarks:" then
        let raw := jsTrim (trimmed.drop 10)
        if raw = "" then []
        else (jsSplit raw ',').filterMap (fun v => jsParseInt10 (jsTrim v))
      else parseBookmarksGo rest inEditor

/-- The renderer's parseBookmarks over a whole file. -/
def parseBookmarks (content : String) : List ℤ :=
  parseBookmarksGo (splitLinesR content) false

/-- First match of the regular expression quote-nonquotes-quote: at each
position, an opening quote followed by at least one non-quote character and
a closing quote captures the characters between the quotes. -/
def firstQuoted : List Char → Option (List Char)
  | [] => none
  | c :: rest =>
      if c = '"' then
        let run := rest.takeWhile (fun x => x ≠ '"')
        let rest2 := rest.dropWhile (fun x => x ≠ '"')
        if run ≠ [] ∧ rest2 ≠ [] then some run else firstQuoted rest
      else firstQuoted rest

/-- Strip one leading and one trailing quote character, the renderer's
replace of the anchored quote pattern. -/
def stripOneQuotePair (s : String) : String :=
  let l1 := match s.data with
            | '"' :: r => r
            | r => r
  let l2 := match l1.reverse with
            | '"' :: r => r.reverse
            | _ => l1
  ⟨l2⟩

/-- The renderer's background extension test, the case-insensitive regular
expression accepting filenames ending in .jpg, .jpeg, .png, .gif or .bmp
(webp is absent from this pattern). -/
def bgExtTest (s : String) : Bool :=
  let l := jsToLower s
  l.endsWith ".jpg" || l.endsWith ".jpeg" || l.endsWith ".png" ||
  l.endsWith ".gif" || l.endsWith ".bmp"

/-- The renderer's parseBackgroundFilename: inside the exact [Events]
section, a candidate is the first quoted substring of the line, or the
trimmed third comma-field with one surrounding quote pair removed; the first
candidate passing the extension test is returned. -/
def parseBackgroundFilenameGo : List String → Bool → String
  | [], _ => ""
  | line :: rest, inEvents =>
      let trimmed := jsTrim line
      if trimmed = "" then parseBackgroundFilenameGo rest inEvents
      else if trimmed.startsWith "[" ∧ trimmed.endsWith "]" then
        parseBackgroundFilenameGo rest (trimmed = "[Events]")
      else if ¬ inEvents ∨ trimmed.startsWith "//" then
        parseBackgroundFilenameGo rest inEvents
      else
        let candidate :=
          match firstQuoted trimmed.data with
          | some q => (⟨q⟩ : String)
          | none =>
              let parts := (jsSplit trimmed ',').map jsTrim
              if parts.length ≥ 3 then stripOneQuotePair (parts.getD 2 "")
              else ""
        if candidate ≠ "" ∧ bgExtTest candidate then candidate
        else parseBackgroundFilenameGo rest inEvents

/-- The renderer's parseBackgroundFilename over a whole file. -/
def parseBackgroundFilename (content : String) : String :=
  parseBackgroundFilenameGo (splitLinesR content) false

/-! ### Highlight ranges, progress, serialization -/

/-- The kind tag of a highlight range.  The source stores strings; untagged
models a range with no type field, which computeProgress counts as an object
range. -/
inductive RKind
  | object
  | breakK
  | bookmark
  | untagged
deriving DecidableEq

/-- A highlight range; stop embeds the source's end field, type its type. -/
structure HRange where
  start : ℚ
  stop : ℚ
  type : RKind
deriving DecidableEq

/-- Mark all bins with index in [a, b] (a possibly negative: JS property
writes at negative indices do not touch the array elements). -/
def setRangeTrue (flags : List Bool) (a b : ℤ) : List Bool :=
  (List.range flags.length).foldl
    (fun f (j : ℕ) => if a ≤ (j : ℤ) ∧ (j : ℤ) ≤ b then f.set j true else f) flags

/-- Mark the bins covered by one object interval: intervals with start
outside [0, maxTime] are skipped; bin indices are floors of the scaled
endpoints, clamped to the last bin; the end index uses max(start, end). -/
def markInterval (flags : List Bool) (maxTime start stop : ℚ) : List Bool :=
  if start < 0 ∨ start > maxTime then flags
  else
    setRangeTrue flags (min 119 ⌊start / maxTime * 120⌋)
      (min 119 ⌊max start stop / maxTime * 120⌋)

/-- The 120 object bins of buildHighlightRanges after marking every
interval; a missing ends entry falls back to the start. -/
def buildFlags (starts ends : List ℚ) (durationMs : ℚ) : List Bool :=
  (List.range starts.length).foldl
    (fun flags i =>
      let start := starts.getD i 0
      let stop := if ends.length > i then ends.getD i 0 else start
      markInterval flags durationMs start stop)
    (List.replicate 120 false)

/-- Run-length encoding of the filled bins into object ranges: a maximal run
of set bins from s to i-1 becomes the range [s/120, i/120); a run still open
at the end closes at 1. -/
def rleRanges : List Bool → ℕ → Option ℕ → List HRange
  | [], _, none => []
  | [], _, some s => [⟨(s : ℚ) / 120, 1, RKind.object⟩]
  | true :: rest, i, none => rleRanges rest (i + 1) (some i)
  | true :: rest, i, some s => rleRanges rest (i + 1) (some s)
  | false :: rest, i, none => rleRanges rest (i + 1) none
  | false :: rest, i, some s =>
      ⟨(s : ℚ) / 120, (i : ℚ) / 120, RKind.object⟩ :: rleRanges rest (i + 1) none

/-- The renderer's buildHighlightRanges. -/
def buildHighlightRanges (starts ends : List ℚ) (durationMs : ℚ) : List HRange :=
  if starts = [] ∨ durationMs = 0 then []
  else rleRanges (buildFlags starts ends durationMs) 0 none

/-- The renderer's buildBreakRanges: scale each break into [0,1] with
clamping and drop empty or inverted results. -/
def buildBreakRanges (breaks : List (ℚ × ℚ)) (durationMs : ℚ) : List HRange :=
  if breaks = [] ∨ durationMs = 0 then []
  else
    (breaks.map (fun p =>
      (⟨min (max (p.1 / durationMs) 0) 1, min (max (p.2 / durationMs) 0) 1,
        RKind.breakK⟩ : HRange))).filter
      (fun r => r.start < r.stop)

/-- Emit one bookmark range per set bin: [i/200, (i + 1.2)/200), the 1.2
widening the source applies for visibility. -/
def bkmRanges : List Bool → ℕ → List HRange
  | [], _ => []
  | f :: rest, i =>
      if f then ⟨(i : ℚ) / 200, ((i : ℚ) + 1.2) / 200, RKind.bookmark⟩ :: bkmRanges rest (i + 1)
      else bkmRanges rest (i + 1)

/-- The renderer's buildBookmarkRanges over 200 bins; negative bin indices
are skipped, indices at least 200 cannot arise from the clamp. -/
def buildBookmarkRanges (bookmarks : List ℚ) (durationMs : ℚ) : List HRange :=
  if bookmarks = [] ∨ durationMs = 0 then []
  else
    bkmRanges
      (bookmarks.foldl
        (fun flags time =>
          let idx : ℤ := min 199 ⌊time / durationMs * 200⌋
          if 0 ≤ idx then flags.set idx.toNat true else flags)
        (List.replicate 200 false))
      0

/-- Minimum of a list of rationals (JS Math.min over a spread array); the
source only calls this on non-empty lists. -/
def listMin : List ℚ → ℚ
  | [] => 0
  | x :: xs => xs.foldl min x

/-- The renderer's computeProgress; the ignoreStartAndBreaks setting is
passed explicitly (the source reads it from the settings object). -/
def computeProgress (ignoreStartAndBreaks : Bool) (ranges : List HRange) : ℚ :=
  if ranges = [] then 0
  else
    let objectRanges := ranges.filter
      (fun r => r.type = RKind.object ∨ r.type = RKind.untagged)
    let breakRanges := ranges.filter (fun r => r.type = RKind.breakK)
    let populated := objectRanges.foldl (fun sum r => sum + (r.stop - r.start)) 0
    if ignoreStartAndBreaks then
      let firstStart :=
        if objectRanges = [] then 0 else listMin (objectRanges.map HRange.start)
      let breakSum := breakRanges.foldl (fun sum r => sum + (r.stop - r.start)) 0
      min 1 ((populated + breakSum) / max (1 / 1000) (1 - firstStart))
    else min 1 populated

/-- Rounding to four decimal places, the effect of Number(x.toFixed(4)) on
the values serialized here. -/
def round4 (q : ℚ) : ℚ := ((round (q * 10000) : ℤ) : ℚ) / 10000

/-- The renderer's serializeHighlights: 4-decimal rounding of start and end
and a one-letter kind (break to b, bookmark to k, anything else to o). -/
def serializeHighlights (ranges : List HRange) : List (ℚ × ℚ × Char) :=
  ranges.map (fun r =>
    (round4 r.start, round4 r.stop,
     if r.type = RKind.breakK then 'b'
     else if r.type = RKind.bookmark then 'k' else 'o'))

/-- The renderer's deserializeHighlights: b back to break, k back to
bookmark, every other kind letter to object; no tuple is rejected. -/
def deserializeHighlights (ts : List (ℚ × ℚ × Char)) : List HRange :=
  ts.map (fun t =>
    ⟨t.1, t.2.1,
     if t.2.2 = 'b' then RKind.breakK
     else if t.2.2 = 'k' then RKind.bookmark else RKind.object⟩)

/-! ### The worker's single-pass parser -/

/-- The worker's section states.  The source's identifySection can never
return its COLOURS value (the length-6 branch compares seven characters
against colours, which cannot match a six-character name followed by the
closing bracket), so a Colours header lands in the none state, which this
model mirrors by omitting the constructor; lines in either state are
ignored identically. -/
inductive WSection
  | noSect
  | general
  | editor
  | metadataS
  | difficulty
  | events
  | timingPointsS
  | hitObjects
deriving DecidableEq

/-- The worker's identifySection: case-insensitive exact match of the text
between the brackets against known section names; unknown names give the
none state. -/
def identifySection (s : String) : WSection :=
  let l := jsToLower s
  if l = "editor" then WSection.editor
  else if l = "events" then WSection.events
  else if l = "general" then WSection.general
  else if l = "metadata" then WSection.metadataS
  else if l = "difficulty" then WSection.difficulty
  else if l = "hitobjects" then WSection.hitObjects
  else if l = "timingpoints" then WSection.timingPointsS
  else WSection.noSect

/-- The worker's result metadata record. -/
structure WMetadata where
  title : String
  artist : String
  creator : String
  version : String
  audio : String
  background : String
  beatmapSetID : String
  previewTime : ℤ
deriving DecidableEq

/-- The initial metadata of parseOsuFile. -/
def initMetadata : WMetadata := ⟨"", "", "", "", "", "", "", -1⟩

/-- The worker's parseMetadataLine: colon-split, case-insensitive key; a
positive integral BeatmapSetID is rewritten into the site URL, any other
value is kept raw. -/
def parseMetadataLine (line : String) (md : WMetadata) : WMetadata :=
  match splitFirst line ':' with
  | none => md
  | some (k, v) =>
      let key := jsToLower (wTrim k)
      let value := wTrim v
      if key = "title" then { md with title := value }
      else if key = "artist" then { md with artist := value }
      else if key = "creator" then { md with creator := value }
      else if key = "version" then { md with version := value }
      else if key = "beatmapsetid" then
        (match fastParseInt value with
         | some id =>
             if 0 < id then
               { md with beatmapSetID := "https://osu.ppy.sh/beatmapsets/" ++ toString id }
             else { md with beatmapSetID := value }
         | none => { md with beatmapSetID := value })
      else md

/-- The worker's parseGeneralLine: AudioFilename and PreviewTime. -/
def parseGeneralLine (line : String) (md : WMetadata) : WMetadata :=
  match splitFirst line ':' with
  | none => md
  | some (k, v) =>
      let key := jsToLower (wTrim k)
      if key = "audiofilename" then { md with audio := wTrim v }
      else if key = "previewtime" then
        (match fastParseInt v with
         | some t => { md with previewTime := t }
         | none => md)
      else md

/-- The worker's isImageExtension: the text after the last dot, compared
case-insensitively against the six accepted image extensions (including
webp). -/
def isImageExtension (filename : String) : Bool :=
  let rev := filename.data.reverse
  let run := rev.takeWhile (fun c => c ≠ '.')
  if run.length = rev.length then false
  else
    let e := jsToLower ⟨run.reverse⟩
    e = "jpg" || e = "jpeg" || e = "png" || e = "webp" || e = "gif" || e = "bmp"

/-- Effect of the worker's parseEventLine on a trimmed Events line: an
optional background assignment and an optional break push.  A line starting
0, takes the text between the second and third commas (or the line end),
strips spaces, tabs and quotes from both ends and assigns it when it passes
isImageExtension.  A line starting 2, parses the second and third fields
with fastParseInt and pushes the pair whenever both parses succeed; a line
with exactly one comma pushes the initial sentinels (-1, -1); no end > start
comparison is made, and the literal break token is not recognized. -/
structure EventOut where
  bg : Option String
  brk : Option (ℤ × ℤ)
deriving DecidableEq

/-- The worker's parseEventLine (see EventOut). -/
def parseEventLine (line : String) : EventOut :=
  let parts := jsSplit line ','
  match line.data with
  | '0' :: ',' :: _ =>
      if parts.length ≥ 3 then
        let bg : String :=
          ⟨trimChars (fun c => c == ' ' || c == '\t' || c == '"') (parts.getD 2 "").data⟩
        if isImageExtension bg then ⟨some bg, none⟩ else ⟨none, none⟩
      else ⟨none, none⟩
  | '2' :: ',' :: _ =>
      if parts.length = 2 then ⟨none, some (-1, -1)⟩
      else
        (match fastParseInt (parts.getD 1 ""), fastParseInt (parts.getD 2 "") with
         | some s, some e => ⟨none, some (s, e)⟩
         | _, _ => ⟨none, none⟩)
  | _ => ⟨none, none⟩

/-- The worker's parseEditorLine: on a case-insensitive Bookmarks: line,
parse each non-empty comma-separated segment after the colon with
fastParseInt, keeping the successes. -/
def parseEditorLine (line : String) : List ℤ :=
  if (jsToLower line).startsWith "bookmarks:" then
    (jsSplit (line.drop 10) ',').filterMap
      (fun seg => if seg = "" then none else fastParseInt seg)
  else []

/-- The worker's parseSliderMultiplier: value of a SliderMultiplier line,
parseFloat with fallback 1.0; none when the line is not that key. -/
def parseSliderMultiplier (line : String) : Option JSNum :=
  match splitFirst line ':' with
  | none => none
  | some (k, v) =>
      if jsToLower (wTrim k) = "slidermultiplier" then
        some (jsOr (jsParseFloat (wTrim v)) (some 1))
      else none

/-- The worker's parseTimingPoint: at least two comma fields; time from
parseInt, beatLength from parseFloat, uninherited from field 7 being the
string 1 (defaulting to uninherited when absent). -/
def parseTimingPoint (line : String) : Option TimingPoint :=
  let parts := jsSplit (wTrim line) ','
  if parts.length ≥ 2 then
    some ⟨jsParseInt (parts.getD 0 ""), jsParseFloat (parts.getD 1 ""),
      if parts.length > 6 then parts.getD 6 "" = "1" else true⟩
  else none

/-- Per-line effect of the worker's parseOsuFile loop: new section, slider
multiplier, timing points and metadata, plus the optional hit object, break
and bookmark contributions of the line. -/
structure WLineEffect where
  sect : WSection
  sm : JSNum
  tps : List TimingPoint
  md : WMetadata
  obj : Option RawObj
  brkAdd : Option (ℤ × ℤ)
  bkmAdd : List ℤ

/-- The dispatch of one (already split) line of the worker's parseOsuFile:
space/tab trimming, empty and comment skipping, section-header switching,
then the section's handler. -/
def wLineEffect (sect : WSection) (sm : JSNum) (tps : List TimingPoint)
    (md : WMetadata) (line0 : String) : WLineEffect :=
  let line := wTrim line0
  if line = "" then ⟨sect, sm, tps, md, none, none, []⟩
  else if line.startsWith "//" then ⟨sect, sm, tps, md, none, none, []⟩
  else if line.startsWith "[" ∧ line.endsWith "]" then
    ⟨identifySection (sliceInner line), sm, tps, md, none, none, []⟩
  else
    match sect with
    | WSection.metadataS => ⟨sect, sm, tps, parseMetadataLine line md, none, none, []⟩
    | WSection.general => ⟨sect, sm, tps, parseGeneralLine line md, none, none, []⟩
    | WSection.events =>
        let eo := parseEventLine line
        ⟨sect, sm, tps,
          (match eo.bg with
           | some b => { md with background := b }
           | none => md), none, eo.brk, []⟩
    | WSection.editor => ⟨sect, sm, tps, md, none, none, parseEditorLine line⟩
    | WSection.difficulty =>
        (match parseSliderMultiplier line with
         | some v => ⟨sect, v, tps, md, none, none, []⟩
         | none => ⟨sect, sm, tps, md, none, none, []⟩)
    | WSection.timingPointsS =>
        (match parseTimingPoint line with
         | some tp => ⟨sect, sm, tps ++ [tp], md, none, none, []⟩
         | none => ⟨sect, sm, tps, md, none, none, []⟩)
    | WSection.hitObjects =>
        ⟨sect, sm, tps, md, parseHitObject line sm tps, none, []⟩
    | WSection.noSect => ⟨sect, sm, tps, md, none, none, []⟩

/-- State of the worker's parseOsuFile loop; hit arrays hold the Int32 and
Int16 stored values, all accumulators are reversed (newest first). -/
structure WState where
  md : WMetadata
  sliderMultiplier : JSNum
  timingPoints : List TimingPoint
  hitStarts : List ℤ
  hitEnds : List ℤ
  hitTypes : List ℤ
  breakPeriods : List (ℤ × ℤ)
  bookmarks : List ℤ
  sect : WSection

/-- One line of the worker's parseOsuFile: apply the line effect; on a hit
push, first raise the previous stored end to the new start when the previous
stored type has the slider bit (the value is re-stored through ToInt32),
then store the new object through ToInt32/ToInt16. -/
def parseOsuFileStep (st : WState) (line0 : String) : WState :=
  let e := wLineEffect st.sect st.sliderMultiplier st.timingPoints st.md line0
  match e.obj with
  | none =>
      { st with
        md := e.md,
        sliderMultiplier := e.sm,
        timingPoints := e.tps,
        sect := e.sect,
        breakPeriods :=
          (match e.brkAdd with
           | some p => p :: st.breakPeriods
           | none => st.breakPeriods),
        bookmarks := e.bkmAdd.reverse ++ st.bookmarks }
  | some o =>
      let ends :=
        match st.hitEnds, st.hitTypes with
        | en :: er, t :: _ =>
            (if intBitAnd t 2 ≠ 0 then toInt32 (jmax (some (en : ℚ)) o.start) else en) :: er
        | en, _ => en
      { st with
        md := e.md,
        sliderMultiplier := e.sm,
        timingPoints := e.tps,
        sect := e.sect,
        hitStarts := toInt32 o.start :: st.hitStarts,
        hitEnds := toInt32 o.stop :: ends,
        hitTypes := toInt16 o.type :: st.hitTypes }

/-- The worker's parse result (the growable typed arrays are modelled as the
lists of their stored values). -/
structure WResult where
  md : WMetadata
  hitStarts : List ℤ
  hitEnds : List ℤ
  breakPeriods : List (ℤ × ℤ)
  bookmarks : List ℤ
deriving DecidableEq

/-- The initial state of parseOsuFile. -/
def initWState : WState :=
  ⟨initMetadata, some 1, [], [], [], [], [], [], WSection.noSect⟩

/-- The worker's parseOsuFile: fold the line loop and return everything in
file order. -/
def parseOsuFile (content : String) : WResult :=
  let st := (splitLinesW content).foldl parseOsuFileStep initWState
  ⟨st.md, st.hitStarts.reverse, st.hitEnds.reverse, st.breakPeriods.reverse,
    st.bookmarks.reverse⟩

/-- Projection state for the worker parser: control and metadata plus the
raw pushed objects (reversed), without the gap fill and the typed-array
coercions. -/
structure WStateRaw where
  md : WMetadata
  sm : JSNum
  tps : List TimingPoint
  sect : WSection
  raws : List RawObj

/-- Gap-fill-free projection of the worker loop. -/
def rawStepW (st : WStateRaw) (line0 : String) : WStateRaw :=
  let e := wLineEffect st.sect st.sm st.tps st.md line0
  match e.obj with
  | none => ⟨e.md, e.sm, e.tps, e.sect, st.raws⟩
  | some o => ⟨e.md, e.sm, e.tps, e.sect, o :: st.raws⟩

/-- The worker's raw hit-object records, newest first. -/
def rawObjsRevW (content : String) : List RawObj :=
  ((splitLinesW content).foldl rawStepW
    ⟨initMetadata, some 1, [], WSection.noSect, []⟩).raws

/-- The worker's raw hit-object records in file order. -/
def rawObjsW (content : String) : List RawObj := (rawObjsRevW content).reverse

/-- Worker gap-fill adjustment of object b by its successor: acts on the
stored (Int32/Int16) values of b and the raw start of the successor. -/
def adjW (b succ : RawObj) : ℤ :=
  if intBitAnd (toInt16 b.type) 2 ≠ 0 then
    toInt32 (jmax (some ((toInt32 b.stop : ℤ) : ℚ)) succ.start)
  else toInt32 b.stop

/-- The stored (Int32) end value of an unadjusted worker object. -/
def finW (o : RawObj) : ℤ := toInt32 o.stop

/-- Worker gap-filled stored end times, reversed orientation. -/
def gfRevW : List RawObj → List ℤ := gfRevG adjW finW

/-- Worker gap-filled stored end times in file order. -/
def gapFillEndsW : List RawObj → List ℤ := gapFillG adjW finW

/-! ## Lemmas about the generic gap fill -/

theorem gapFillKG_append {α : Type} (adj : RawObj → RawObj → α) :
    ∀ (xs : List RawObj) (b k : RawObj),
      gapFillKG adj (xs ++ [b]) k = gapFillKG adj xs b ++ [adj b k] := by
  intro xs
  induction xs with
  | nil => intro b k; rfl
  | cons a xs ih =>
      intro b k
      cases xs with
      | nil => rfl
      | cons c xs2 =>
          exact congrArg (fun l => adj a c :: l) (ih b k)

theorem gapFillG_append {α : Type} (adj : RawObj → RawObj → α) (fin : RawObj → α) :
    ∀ (xs : List RawObj) (b : RawObj),
      gapFillG adj fin (xs ++ [b]) = gapFillKG adj xs b ++ [fin b] := by
  intro xs
  induction xs with
  | nil => intro b; rfl
  | cons a xs ih =>
      intro b
      cases xs with
      | nil => rfl
      | cons c xs2 =>
          exact congrArg (fun l => adj a c :: l) (ih b)

theorem gfAuxG_reverse {α : Type} (adj : RawObj → RawObj → α) :
    ∀ (l : List RawObj) (prev : RawObj),
      (gfAuxG adj prev l).reverse = gapFillKG adj l.reverse prev := by
  intro l
  induction l with
  | nil => intro prev; rfl
  | cons b r ih =>
      intro prev
      simp only [gfAuxG, List.reverse_cons, ih, gapFillKG_append]

theorem gfRevG_reverse {α : Type} (adj : RawObj → RawObj → α) (fin : RawObj → α) :
    ∀ l : List RawObj, (gfRevG adj fin l).reverse = gapFillG adj fin l.reverse := by
  intro l
  cases l with
  | nil => rfl
  | cons a rest =>
      simp only [gfRevG, List.reverse_cons, gfAuxG_reverse, gapFillG_append]

theorem gapFillG_get? {α : Type} (adj : RawObj → RawObj → α) (fin : RawObj → α) :
    ∀ (l : List RawObj) (i : ℕ) (a : RawObj), l.get? i = some a →
      (gapFillG adj fin l).get? i =
        some (match l.get? (i + 1) with
              | some b => adj a b
              | none => fin a) := by
  intro l
  induction l with
  | nil => intro i a h; simp at h
  | cons x rest ih =>
      intro i a h
      cases i with
      | zero =>
          simp only [List.get?_cons_zero, Option.some.injEq] at h
          subst h
          cases rest with
          | nil => rfl
          | cons b r2 => rfl
      | succ j =>
          simp only [List.get?_cons_succ] at h ⊢
          exact ih j a h

theorem gapFillG_length {α : Type} (adj : RawObj → RawObj → α) (fin : RawObj → α) :
    ∀ l : List RawObj, (gapFillG adj fin l).length = l.length := by
  intro l
  induction l with
  | nil => rfl
  | cons a rest ih => simp [gapFillG, ih]

/-! ## Factoring the renderer's parseHitObjects through the raw objects -/

theorem stepR_rel (st : RState) (rst : RStateRaw) (line : String)
    (h1 : st.sect = rst.sect) (h2 : st.sliderMultiplier = rst.sliderMultiplier)
    (h3 : st.timingPoints = rst.timingPoints)
    (h4 : st.hitStarts = rst.raws.map RawObj.start)
    (h5 : st.hitTypes = rst.raws.map RawObj.type)
    (h6 : st.hitEnds = gfRevR rst.raws) :
    (parseHitObjectsStep st line).sect = (rawStepR rst line).sect ∧
    (parseHitObjectsStep st line).sliderMultiplier = (rawStepR rst line).sliderMultiplier ∧
    (parseHitObjectsStep st line).timingPoints = (rawStepR rst line).timingPoints ∧
    (parseHitObjectsStep st line).hitStarts = (rawStepR rst line).raws.map RawObj.start ∧
    (parseHitObjectsStep st line).hitTypes = (rawStepR rst line).raws.map RawObj.type ∧
    (parseHitObjectsStep st line).hitEnds = gfRevR (rawStepR rst line).raws := by
  unfold parseHitObjectsStep rawStepR
  rw [h1, h2, h3]
  rcases hc : lineCtrlR rst.sect rst.sliderMultiplier rst.timingPoints line with ⟨s, m, t, ob⟩
  cases ob with
  | none => simp [h4, h5, h6]
  | some o =>
      cases hr : rst.raws with
      | nil => simp [h4, h5, h6, hr, gfRevR, gfRevG, gfAuxG]
      | cons a rest =>
          refine ⟨rfl, rfl, rfl, ?_, ?_, ?_⟩
          · simp [h4, hr]
          · simp [h5, hr]
          · simp only [h5, h6, hr, gfRevR, gfRevG, gfAuxG, List.map_cons, adjR]

theorem foldlR_rel :
    ∀ (lines : List String) (st : RState) (rst : RStateRaw),
      st.sect = rst.sect → st.sliderMultiplier = rst.sliderMultiplier →
      st.timingPoints = rst.timingPoints →
      st.hitStarts = rst.raws.map RawObj.start →
      st.hitTypes = rst.raws.map RawObj.type →
      st.hitEnds = gfRevR rst.raws →
      (lines.foldl parseHitObjectsStep st).hitStarts =
        (lines.foldl rawStepR rst).raws.map RawObj.start ∧
      (lines.foldl parseHitObjectsStep st).hitEnds =
        gfRevR (lines.foldl rawStepR rst).raws := by
  intro lines
  induction lines with
  | nil => intro st rst _ _ _ h4 _ h6; exact ⟨h4, h6⟩
  | cons l ls ih =>
      intro st rst h1 h2 h3 h4 h5 h6
      obtain ⟨g1, g2, g3, g4, g5, g6⟩ := stepR_rel st rst l h1 h2 h3 h4 h5 h6
      exact ih (parseHitObjectsStep st l) (rawStepR rst l) g1 g2 g3 g4 g5 g6

theorem parseHitObjects_eq (c : String) :
    parseHitObjects c = ((rawObjsR c).map RawObj.start, gapFillEnds (rawObjsR c)) := by
  obtain ⟨hs, he⟩ := foldlR_rel (splitLinesR c) ⟨"", some 1, [], [], [], []⟩
    ⟨"", some 1, [], []⟩ rfl rfl rfl rfl rfl rfl
  simp only [parseHitObjects, rawObjsR, rawObjsRevR]
  rw [hs, he]
  refine Prod.ext ?_ ?_
  · simp [List.map_reverse]
  · exact gfRevG_reverse adjR RawObj.stop _

/-! ## Factoring the worker's parseOsuFile through the raw objects -/

theorem stepW_rel (st : WState) (rst : WStateRaw) (line : String)
    (h1 : st.sect = rst.sect) (h2 : st.sliderMultiplier = rst.sm)
    (h3 : st.timingPoints = rst.tps) (h0 : st.md = rst.md)
    (h4 : st.hitStarts = rst.raws.map (fun o => toInt32 o.start))
    (h5 : st.hitTypes = rst.raws.map (fun o => toInt16 o.type))
    (h6 : st.hitEnds = gfRevW rst.raws) :
    (parseOsuFileStep st line).sect = (rawStepW rst line).sect ∧
    (parseOsuFileStep st line).sliderMultiplier = (rawStepW rst line).sm ∧
    (parseOsuFileStep st line).timingPoints = (rawStepW rst line).tps ∧
    (parseOsuFileStep st line).md = (rawStepW rst line).md ∧
    (parseOsuFileStep st line).hitStarts =
      (rawStepW rst line).raws.map (fun o => toInt32 o.start) ∧
    (parseOsuFileStep st line).hitTypes =
      (rawStepW rst line).raws.map (fun o => toInt16 o.type) ∧
    (parseOsuFileStep st line).hitEnds = gfRevW (rawStepW rst line).raws := by
  unfold parseOsuFileStep rawStepW
  rw [h1, h2, h3, h0]
  rcases he : (wLineEffect rst.sect rst.sm rst.tps rst.md line).obj with - | o
  · simp [he, h4, h5, h6]
  · cases hr : rst.raws with
    | nil => simp [he, h4, h5, h6, hr, gfRevW, gfRevG, gfAuxG, finW]
    | cons a rest =>
        refine ⟨?_, ?_, ?_, ?_, ?_, ?_, ?_⟩ <;>
          simp only [he, h4, h5, h6, hr, gfRevW, gfRevG, gfAuxG, List.map_cons,
            adjW, finW]

theorem foldlW_rel :
    ∀ (lines : List String) (st : WState) (rst : WStateRaw),
      st.sect = rst.sect → st.sliderMultiplier = rst.sm →
      st.timingPoints = rst.tps → st.md = rst.md →
      st.hitStarts = rst.raws.map (fun o => toInt32 o.start) →
      st.hitTypes = rst.raws.map (fun o => toInt16 o.type) →
      st.hitEnds = gfRevW rst.raws →
      (lines.foldl parseOsuFileStep st).hitStarts =
        (lines.foldl rawStepW rst).raws.map (fun o => toInt32 o.start) ∧
      (lines.foldl parseOsuFileStep st).hitEnds =
        gfRevW (lines.foldl rawStepW rst).raws := by
  intro lines
  induction lines with
  | nil => intro st rst _ _ _ _ h4 _ h6; exact ⟨h4, h6⟩
  | cons l ls ih =>
      intro st rst h1 h2 h3 h0 h4 h5 h6
      obtain ⟨g1, g2, g3, g0, g4, g5, g6⟩ := stepW_rel st rst l h1 h2 h3 h0 h4 h5 h6
      exact ih (parseOsuFileStep st l) (rawStepW rst l) g1 g2 g3 g0 g4 g5 g6

theorem parseOsuFile_hits (c : String) :
    (parseOsuFile c).hitStarts = (rawObjsW c).map (fun o => toInt32 o.start) ∧
    (parseOsuFile c).hitEnds = gapFillEndsW (rawObjsW c) := by
  obtain ⟨hs, he⟩ := foldlW_rel (splitLinesW c) initWState
    ⟨initMetadata, some 1, [], WSection.noSect, []⟩ rfl rfl rfl rfl rfl rfl rfl
  simp only [parseOsuFile, rawObjsW, rawObjsRevW]
  rw [hs, he]
  constructor
  · simp [List.map_reverse]
  · exact gfRevG_reverse adjW finW _

/-! ## Shape of the objects pushed by the hit-object parsers -/

theorem jmax_eq_some {x y : JSNum} {q : ℚ} (h : jmax x y = some q) :
    ∃ a b, x = some a ∧ y = some b ∧ q = max a b := by
  cases x with
  | none => simp [jmax] at h
  | some a =>
      cases y with
      | none => simp [jmax] at h
      | some b =>
          refine ⟨a, b, rfl, rfl, ?_⟩
          simpa [jmax, eq_comm] using h

theorem hitObjectCore_shape (res : JSNum → List TimingPoint → TimingInfo)
    (parts : List String) (sm : JSNum) (tps : List TimingPoint) :
    ∃ e, (hitObjectCore res parts sm tps).stop =
      jmax (hitObjectCore res parts sm tps).start e :=
  ⟨_, rfl⟩

theorem hitObjectOfLine_shape (res : JSNum → List TimingPoint → TimingInfo)
    (line : String) (sm : JSNum) (tps : List TimingPoint) (o : RawObj)
    (h : hitObjectOfLine res line sm tps = some o) :
    ∃ e, o.stop = jmax o.start e := by
  unfold hitObjectOfLine at h
  split at h
  · exact absurd h (by simp)
  · injection h with h2
    subst h2
    exact hitObjectCore_shape res _ sm tps

theorem lineCtrlR_obj {sect : String} {sm : JSNum} {tps : List TimingPoint}
    {line : String} {o : RawObj}
    (h : (lineCtrlR sect sm tps line).2.2.2 = some o) :
    ∃ e, o.stop = jmax o.start e := by
  simp only [lineCtrlR] at h
  split_ifs at h <;>
    first
      | exact hitObjectOfLine_shape getTiming _ _ _ _ h
      | simp at h
      | (split at h <;> first | (split_ifs at h <;> simp at h) | simp at h)

theorem rawStepR_shape (rst : RStateRaw) (line : String)
    (hyp : ∀ o ∈ rst.raws, ∃ e, o.stop = jmax o.start e) :
    ∀ o ∈ (rawStepR rst line).raws, ∃ e, o.stop = jmax o.start e := by
  unfold rawStepR
  rcases hc : lineCtrlR rst.sect rst.sliderMultiplier rst.timingPoints line with ⟨s, m, t, ob⟩
  cases ob with
  | none => simpa using hyp
  | some o2 =>
      intro o ho
      simp only [List.mem_cons] at ho
      rcases ho with rfl | ho
      · exact lineCtrlR_obj (by rw [hc])
      · exact hyp o ho

theorem foldlR_shape :
    ∀ (lines : List String) (rst : RStateRaw),
      (∀ o ∈ rst.raws, ∃ e, o.stop = jmax o.start e) →
      ∀ o ∈ (lines.foldl rawStepR rst).raws, ∃ e, o.stop = jmax o.start e := by
  intro lines
  induction lines with
  | nil => intro rst hyp; exact hyp
  | cons l ls ih =>
      intro rst hyp
      exact ih (rawStepR rst l) (rawStepR_shape rst l hyp)

theorem rawObjsR_shape (c : String) :
    ∀ o ∈ rawObjsR c, ∃ e, o.stop = jmax o.start e := by
  intro o ho
  rw [rawObjsR, List.mem_reverse] at ho
  exact foldlR_shape (splitLinesR c) ⟨"", some 1, [], []⟩ (by simp) o ho

/-! ## End-versus-start comparisons for accepted hit objects -/

theorem stop_ge_start {o : RawObj} (hsh : ∃ e, o.stop = jmax o.start e)
    {qa qb : ℚ} (ha : o.start = some qa) (hb : o.stop = some qb) : qa ≤ qb := by
  obtain ⟨e, hst⟩ := hsh
  rw [hst, ha] at hb
  obtain ⟨x, y, hx, hy, hq⟩ := jmax_eq_some hb
  have hax : qa = x := by injection hx
  subst hax
  exact hq ▸ le_max_left qa y

theorem snd_parseHitObjects (c : String) :
    (parseHitObjects c).2 = gapFillG adjR RawObj.stop (rawObjsR c) := by
  rw [parseHitObjects_eq]; rfl

theorem fst_parseHitObjects (c : String) :
    (parseHitObjects c).1 = (rawObjsR c).map RawObj.start := by
  rw [parseHitObjects_eq]

theorem parseHitObjects_end_ge_start (c : String) (i : ℕ) (qa qb : ℚ)
    (hs : (parseHitObjects c).1.get? i = some (some qa))
    (he : (parseHitObjects c).2.get? i = some (some qb)) : qa ≤ qb := by
  rw [fst_parseHitObjects, List.get?_map] at hs
  obtain ⟨a, hai, has⟩ := Option.map_eq_some'.mp hs
  have hsh := rawObjsR_shape c a (List.get?_mem hai)
  rw [snd_parseHitObjects, gapFillG_get? adjR RawObj.stop (rawObjsR c) i a hai] at he
  injection he with he2
  cases hnext : (rawObjsR c).get? (i + 1) with
  | none =>
      rw [hnext] at he2
      exact stop_ge_start hsh has he2
  | some b =>
      rw [hnext] at he2
      simp only at he2
      by_cases hbit : jsBitAnd a.type 2 ≠ 0
      · rw [adjR, if_pos hbit] at he2
        obtain ⟨x, y, hx, hy, hq⟩ := jmax_eq_some he2
        have hax : qa ≤ x := stop_ge_start hsh has hx
        calc qa ≤ x := hax
          _ ≤ max x y := le_max_left x y
          _ = qb := hq.symm
      · rw [adjR, if_neg hbit] at he2
        exact stop_ge_start hsh has he2

theorem parseHitObject_end_ge_start (line : String) (sm : JSNum)
    (tps : List TimingPoint) (o : RawObj) (qa qb : ℚ)
    (h : parseHitObject line sm tps = some o)
    (ha : o.start = some qa) (hb : o.stop = some qb) : qa ≤ qb :=
  stop_ge_start (hitObjectOfLine_shape getTimingInfo line sm tps o h) ha hb

theorem hitEnds_parseOsuFile (c : String) :
    (parseOsuFile c).hitEnds = gapFillG adjW finW (rawObjsW c) :=
  (parseOsuFile_hits c).2

theorem rendererEnds_at (c : String) (i : ℕ) (a b : RawObj)
    (hai : (rawObjsR c).get? i = some a)
    (hbi : (rawObjsR c).get? (i + 1) = some b) :
    (parseHitObjects c).2.get? i = some (adjR a b) := by
  rw [snd_parseHitObjects, gapFillG_get? adjR RawObj.stop (rawObjsR c) i a hai, hbi]

theorem rendererEnds_last (c : String) (i : ℕ) (a : RawObj)
    (hai : (rawObjsR c).get? i = some a)
    (hbi : (rawObjsR c).get? (i + 1) = none) :
    (parseHitObjects c).2.get? i = some a.stop := by
  rw [snd_parseHitObjects, gapFillG_get? adjR RawObj.stop (rawObjsR c) i a hai, hbi]

theorem workerEnds_at (c : String) (i : ℕ) (a b : RawObj)
    (hai : (rawObjsW c).get? i = some a)
    (hbi : (rawObjsW c).get? (i + 1) = some b) :
    (parseOsuFile c).hitEnds.get? i = some (adjW a b) := by
  rw [hitEnds_parseOsuFile, gapFillG_get? adjW finW (rawObjsW c) i a hai, hbi]

theorem workerEnds_last (c : String) (i : ℕ) (a : RawObj)
    (hai : (rawObjsW c).get? i = some a)
    (hbi : (rawObjsW c).get? (i + 1) = none) :
    (parseOsuFile c).hitEnds.get? i = some (finW a) := by
  rw [hitEnds_parseOsuFile, gapFillG_get? adjW finW (rawObjsW c) i a hai, hbi]

/-! ## Claim C8 -/

/-- C8: in both parsers, for consecutive accepted hit objects i and i+1 in
file order, an object i carrying the slider type bit (type AND 2) stores as
its final end time the maximum of its computed end time and object i+1's
start time; an object whose successor does not exist, or whose type lacks
the slider bit, keeps its computed end time.  The renderer arrays hold the
raw JS values; the worker arrays hold the Int32/Int16 stored values, so its
maximum is taken over the stored previous end and re-stored through ToInt32. -/
theorem c8_slider_gap_fill :
    (∀ (c : String) (i : ℕ) (a b : RawObj),
      (rawObjsR c).get? i = some a → (rawObjsR c).get? (i + 1) = some b →
      jsBitAnd a.type 2 ≠ 0 →
      (parseHitObjects c).2.get? i = some (jmax a.stop b.start)) ∧
    (∀ (c : String) (i : ℕ) (a b : RawObj),
      (rawObjsR c).get? i = some a → (rawObjsR c).get? (i + 1) = some b →
      jsBitAnd a.type 2 = 0 →
      (parseHitObjects c).2.get? i = some a.stop) ∧
    (∀ (c : String) (i : ℕ) (a : RawObj),
      (rawObjsR c).get? i = some a → (rawObjsR c).get? (i + 1) = none →
      (parseHitObjects c).2.get? i = some a.stop) ∧
    (∀ (c : String) (i : ℕ) (a b : RawObj),
      (rawObjsW c).get? i = some a → (rawObjsW c).get? (i + 1) = some b →
      intBitAnd (toInt16 a.type) 2 ≠ 0 →
      (parseOsuFile c).hitEnds.get? i =
        some (toInt32 (jmax (some ((toInt32 a.stop : ℤ) : ℚ)) b.start))) ∧
    (∀ (c : String) (i : ℕ) (a b : RawObj),
      (rawObjsW c).get? i = some a → (rawObjsW c).get? (i + 1) = some b →
      intBitAnd (toInt16 a.type) 2 = 0 →
      (parseOsuFile c).hitEnds.get? i = some (toInt32 a.stop)) ∧
    (∀ (c : String) (i : ℕ) (a : RawObj),
      (rawObjsW c).get? i = some a → (rawObjsW c).get? (i + 1) = none →
      (parseOsuFile c).hitEnds.get? i = some (toInt32 a.stop)) := by
  refine ⟨?_, ?_, ?_, ?_, ?_, ?_⟩
  · intro c i a b hai hbi hbit
    rw [rendererEnds_at c i a b hai hbi, adjR, if_pos hbit]
  · intro c i a b hai hbi hbit
    rw [rendererEnds_at c i a b hai hbi, adjR, if_neg (by simp [hbit])]
  · intro c i a hai hbi
    exact rendererEnds_last c i a hai hbi
  · intro c i a b hai hbi hbit
    rw [workerEnds_at c i a b hai hbi, adjW, if_pos hbit]
  · intro c i a b hai hbi hbit
    rw [workerEnds_at c i a b hai hbi, adjW, if_neg (by simp [hbit])]
  · intro c i a hai hbi
    exact workerEnds_last c i a hai hbi

/-- Witness for C8 at a two-object file whose first object is a slider with
computed end 600 and whose successor starts at 700. -/
theorem c8_slider_gap_fill_witness :
    (parseHitObjects "[HitObjects]\n0,0,100,2,0,L,1,100\n0,0,700,1").2.get? 0 =
      some (jmax (some 600) (some 700)) ∧
    (parseOsuFile "[HitObjects]\n0,0,100,2,0,L,1,100\n0,0,700,1").hitEnds.get? 0 =
      some (toInt32 (jmax (some ((toInt32 (some 600) : ℤ) : ℚ)) (some 700))) := by
  constructor
  · exact c8_slider_gap_fill.1 "[HitObjects]\n0,0,100,2,0,L,1,100\n0,0,700,1" 0
      ⟨some 100, some 600, some 2⟩ ⟨some 700, some 700, some 1⟩
      (by with_unfolding_all rfl) (by with_unfolding_all rfl)
      (by with_unfolding_all decide)
  · exact c8_slider_gap_fill.2.2.2.1 "[HitObjects]\n0,0,100,2,0,L,1,100\n0,0,700,1" 0
      ⟨some 100, some 600, some 2⟩ ⟨some 700, some 700, some 1⟩
      (by with_unfolding_all rfl) (by with_unfolding_all rfl)
      (by with_unfolding_all decide)

/-! ## Claim C9 -/

/-- C9 (amended): whenever an accepted hit object's stored start and end are
both numbers (not NaN), the end is at least the start: for the renderer, at
every index of the parallel arrays of parseHitObjects; for the worker, for
every object returned by parseHitObject.  (Objects from lines whose time
field does not parse, or whose slider duration involves a NaN beat length,
can store NaN instead, which is what the counterexample exhibits.) -/
theorem c9_end_ge_start :
    (∀ (c : String) (i : ℕ) (qa qb : ℚ),
      (parseHitObjects c).1.get? i = some (some qa) →
      (parseHitObjects c).2.get? i = some (some qb) → qa ≤ qb) ∧
    (∀ (line : String) (sm : JSNum) (tps : List TimingPoint) (o : RawObj) (qa qb : ℚ),
      parseHitObject line sm tps = some o →
      o.start = some qa → o.stop = some qb → qa ≤ qb) :=
  ⟨parseHitObjects_end_ge_start, parseHitObject_end_ge_start⟩

/-- Witness for C9 at the two-object slider file: the first stored start is
100 and the first stored end is 700. -/
theorem c9_end_ge_start_witness : (100 : ℚ) ≤ 700 :=
  c9_end_ge_start.1 "[HitObjects]\n0,0,100,2,0,L,1,100\n0,0,700,1" 0 100 700
    (by with_unfolding_all rfl) (by with_unfolding_all rfl)

/-- Counterexample to C9 as stated: a slider whose active timing point has a
non-numeric beat length stores start 1000 and end NaN, so the stored end is
not greater than or equal to the stored start (the JS comparison on the
stored pair is false). -/
theorem c9_counterexample :
    parseHitObjects "[TimingPoints]\n0,x\n[HitObjects]\n0,0,1000,2,0,L,1,100" =
      ([some 1000], [none]) ∧
    jge none (some 1000) = false := by
  constructor
  · with_unfolding_all rfl
  · rfl

/-! ## Claim C10 -/

/-- C10: deserializeHighlights maps every tuple, rejecting none; kind b goes
to break, kind k to bookmark, and every other kind letter (including o) to
object. -/
theorem c10_deserialize_total (ts : List (ℚ × ℚ × Char)) :
    (deserializeHighlights ts).length = ts.length ∧
    (∀ (i : ℕ) (s e : ℚ) (k : Char), ts.get? i = some (s, e, k) →
      (deserializeHighlights ts).get? i =
        some ⟨s, e,
          if k = 'b' then RKind.breakK
          else if k = 'k' then RKind.bookmark else RKind.object⟩) := by
  constructor
  · simp [deserializeHighlights]
  · intro i s e k h
    simp only [deserializeHighlights, List.get?_map, h, Option.map_some']

/-- Witness for C10 at a tuple with the unknown kind letter z, mapped to an
object range. -/
theorem c10_deserialize_total_witness :
    (deserializeHighlights [(1/2, 3/4, 'z')]).get? 0 =
      some ⟨1/2, 3/4, RKind.object⟩ :=
  (c10_deserialize_total [(1/2, 3/4, 'z')]).2 0 (1/2) (3/4) 'z' rfl

/-! ## Claim C5 -/

/-- C5: for ranges whose kinds are object, break or bookmark (the kinds the
builders produce), deserializing a serialization reproduces the list with
start and end rounded to four decimal places and the kind mapped exactly
back. -/
theorem c5_round_trip (ranges : List HRange)
    (h : ∀ r ∈ ranges, r.type ≠ RKind.untagged) :
    deserializeHighlights (serializeHighlights ranges) =
      ranges.map (fun r => ⟨round4 r.start, round4 r.stop, r.type⟩) := by
  induction ranges with
  | nil => rfl
  | cons r rest ih =>
      have hr := h r (by simp)
      have htail := ih (fun x hx => h x (by simp [hx]))
      simp only [serializeHighlights, deserializeHighlights, List.map_cons] at htail ⊢
      congr 1
      rcases ht : r.type <;> simp [ht] at hr ⊢

/-- Witness for C5 on a one-element object range list. -/
theorem c5_round_trip_witness :
    deserializeHighlights (serializeHighlights [⟨1/3, 2/3, RKind.object⟩]) =
      [⟨round4 (1/3), round4 (2/3), RKind.object⟩] :=
  c5_round_trip [⟨1/3, 2/3, RKind.object⟩]
    (by intro r hr; rw [List.mem_singleton] at hr; subst hr; decide)

/-! ## Claim C4 -/

theorem foldl_len_sum :
    ∀ (l : List HRange) (init : ℚ),
      l.foldl (fun sum r => sum + (r.stop - r.start)) init =
        init + (l.map (fun r => r.stop - r.start)).sum := by
  intro l
  induction l with
  | nil => intro init; simp
  | cons r rest ih => intro init; simp [ih, add_assoc]

/-- C4: computeProgress returns 0 on the empty list; with the setting off it
returns min(1, populated) where populated sums end - start over object or
untagged ranges; with the setting on it returns
min(1, (populated + break lengths) / max(0.001, 1 - firstObjectStart)),
where firstObjectStart is the least start among the object ranges (0 when
there are none). -/
theorem c4_compute_progress (b : Bool) (ranges : List HRange) :
    computeProgress b ranges =
      if ranges = [] then 0
      else
        let objectRanges :=
          ranges.filter (fun r => r.type = RKind.object ∨ r.type = RKind.untagged)
        let populated := (objectRanges.map (fun r => r.stop - r.start)).sum
        if b then
          min 1 ((populated +
              ((ranges.filter (fun r => r.type = RKind.breakK)).map
                (fun r => r.stop - r.start)).sum) /
            max (1 / 1000)
              (1 - (if objectRanges = [] then 0
                    else listMin (objectRanges.map HRange.start))))
        else min 1 populated := by
  simp only [computeProgress, foldl_len_sum, zero_add]

/-! ## Claim C1 -/

theorem getTimingGo_eq_info (time : JSNum) :
    ∀ (tps : List TimingPoint) (bpm sv : JSNum),
      (∀ tp ∈ tps, tp.uninherited = false → jlt tp.beatLength (some 0) = true) →
      getTimingGo time tps bpm sv = getTimingInfoGo time tps bpm sv := by
  intro tps
  induction tps with
  | nil => intro bpm sv _; rfl
  | cons tp rest ih =>
      intro bpm sv h
      have hrest : ∀ tp2 ∈ rest, tp2.uninherited = false →
          jlt tp2.beatLength (some 0) = true :=
        fun tp2 h2 => h tp2 (List.mem_cons_of_mem tp h2)
      rw [getTimingGo, getTimingInfoGo]
      split
      · rfl
      · split
        · exact ih tp.beatLength (some 1) hrest
        · next hu =>
            split
            · exact ih bpm (jdiv (some (-100)) tp.beatLength) hrest
            · next hneg =>
                exact absurd (h tp (List.mem_cons_self tp rest) (by simpa using hu)) hneg

/-- Outside the disputed case - that is, whenever every inherited timing
point carries a negative beat length - the two resolvers agree; the
divergence of c1_resolver_divergence is exactly the non-negative inherited
branch. -/
theorem resolvers_agree_on_negative_inherited (time : JSNum) (tps : List TimingPoint)
    (h : ∀ tp ∈ tps, tp.uninherited = false → jlt tp.beatLength (some 0) = true) :
    getTiming time tps = getTimingInfo time tps :=
  getTimingGo_eq_info time tps (some (60000 / 120)) (some 1) h

/-- The default resolution with no timing points: beat length 500 ms and
scroll velocity 1, in both resolvers. -/
theorem resolvers_default (time : JSNum) :
    getTiming time [] = ⟨some 500, some 1⟩ ∧
    getTimingInfo time [] = ⟨some 500, some 1⟩ := by
  constructor <;> with_unfolding_all rfl

/-- C1: the two timing resolvers disagree on inherited points with
non-negative beat length.  After an inherited point with beat length -50
(scroll velocity 2) and an inherited point with beat length 100, the
renderer's getTiming leaves the scroll velocity at 2 as the claim states,
but the worker's getTimingInfo resets it to 1.0, so the claim fails for
getTimingInfo. -/
theorem c1_resolver_divergence :
    getTiming (some 1000)
      [⟨some 0, some (-50), false⟩, ⟨some 500, some 100, false⟩] =
      ⟨some 500, some 2⟩ ∧
    getTimingInfo (some 1000)
      [⟨some 0, some (-50), false⟩, ⟨some 500, some 100, false⟩] =
      ⟨some 500, some 1⟩ := by
  constructor <;> with_unfolding_all rfl

/-! ## Claim C3 -/

/-- C3: the two parsers disagree.  On a file whose Events section holds the
line 2,100,50 (a break with end not greater than start), the worker's
parseOsuFile records the break period while the renderer's parseBreakPeriods
discards it, so the parsers' break lists differ. -/
theorem c3_parser_divergence :
    (parseOsuFile "[Events]\n2,100,50").breakPeriods = [(100, 50)] ∧
    parseBreakPeriods "[Events]\n2,100,50" = [] := by
  constructor <;> with_unfolding_all rfl

/-! ## Claim C6 -/

/-- C6: the worker's parseEventLine records a break for 2,100,50 even though
end is not greater than start, records the sentinel pair (-1, -1) for a
2-line with a single comma, and ignores a break-token line, while the
renderer's parseBreakPeriods records the break-token line and enforces
end > start - so "recorded if and only if end > start" fails for
parseEventLine. -/
theorem c6_break_line_divergence :
    parseEventLine "2,100,50" = ⟨none, some (100, 50)⟩ ∧
    parseEventLine "2,7" = ⟨none, some (-1, -1)⟩ ∧
    parseEventLine "break,5,900" = ⟨none, none⟩ ∧
    parseBreakPeriods "[Events]\n2,100,50\nbreak,5,900" = [(5, 900)] := by
  refine ⟨?_, ?_, ?_, ?_⟩ <;> with_unfolding_all rfl

/-! ## Claim C7 -/

/-- C7: a background declaration naming bg.webp is accepted by the worker's
isImageExtension (and stored by parseOsuFile) but rejected by the renderer's
parseBackgroundFilename, whose extension pattern lacks webp - so "accepted
iff the extension is one of jpg/jpeg/png/gif/bmp/webp" fails for the
renderer. -/
theorem c7_background_divergence :
    isImageExtension "bg.webp" = true ∧
    parseBackgroundFilename "[Events]\n0,0,\"bg.webp\",0,0" = "" ∧
    (parseOsuFile "[Events]\n0,0,\"bg.webp\",0,0").md.background = "bg.webp" ∧
    parseBackgroundFilename "[Events]\n0,0,\"bg.png\",0,0" = "bg.png" := by
  refine ⟨?_, ?_, ?_, ?_⟩ <;> with_unfolding_all rfl

/-! ## Claim C2 -/

theorem foldl_set_length (a b : ℤ) :
    ∀ (js : List ℕ) (flags : List Bool),
      (js.foldl
        (fun f (j : ℕ) => if a ≤ (j : ℤ) ∧ (j : ℤ) ≤ b then f.set j true else f)
        flags).length = flags.length := by
  intro js
  induction js with
  | nil => intro flags; rfl
  | cons j js ih =>
      intro flags
      simp only [List.foldl_cons]
      rw [ih]
      split <;> simp

theorem setRangeTrue_length (flags : List Bool) (a b : ℤ) :
    (setRangeTrue flags a b).length = flags.length := by
  unfold setRangeTrue
  exact foldl_set_length a b _ flags

theorem markInterval_length (flags : List Bool) (m s t : ℚ) :
    (markInterval flags m s t).length = flags.length := by
  unfold markInterval
  split
  · rfl
  · exact setRangeTrue_length flags _ _

theorem foldl_markInterval_length (starts ends : List ℚ) (d : ℚ) :
    ∀ (js : List ℕ) (flags : List Bool),
      (js.foldl
        (fun flags i =>
          markInterval flags d (starts.getD i 0)
            (if ends.length > i then ends.getD i 0 else starts.getD i 0))
        flags).length = flags.length := by
  intro js
  induction js with
  | nil => intro flags; rfl
  | cons j js ih =>
      intro flags
      simp only [List.foldl_cons]
      rw [ih, markInterval_length]

theorem buildFlags_length (starts ends : List ℚ) (d : ℚ) :
    (buildFlags starts ends d).length = 120 := by
  unfold buildFlags
  rw [foldl_markInterval_length]
  simp

theorem rleRanges_bound :
    ∀ (flags : List Bool) (i : ℕ) (st : Option ℕ),
      (∀ s, st = some s → s < i) → i + flags.length ≤ 120 →
      ∀ r ∈ rleRanges flags i st, 0 ≤ r.start ∧ r.start < r.stop ∧ r.stop ≤ 1 := by
  intro flags
  induction flags with
  | nil =>
      intro i st hst hlen r hr
      cases st with
      | none => simp [rleRanges] at hr
      | some s =>
          simp only [rleRanges, List.mem_singleton] at hr
          subst hr
          have hs : s < i := hst s rfl
          have hi : i ≤ 120 := by simpa using hlen
          refine ⟨by positivity, ?_, le_refl 1⟩
          show (s : ℚ) / 120 < 1
          rw [div_lt_one (by norm_num)]
          exact_mod_cast lt_of_lt_of_le hs hi
  | cons f rest ih =>
      intro i st hst hlen r hr
      simp only [List.length_cons] at hlen
      cases f with
      | true =>
          cases st with
          | none =>
              simp only [rleRanges] at hr
              refine ih (i + 1) (some i) ?_ (by omega) r hr
              intro s hs2
              have hs3 : s = i := by injection hs2.symm
              omega
          | some s0 =>
              simp only [rleRanges] at hr
              refine ih (i + 1) (some s0) ?_ (by omega) r hr
              intro s hs2
              have hs3 : s = s0 := by injection hs2.symm
              have := hst s0 rfl
              omega
      | false =>
          cases st with
          | none =>
              simp only [rleRanges] at hr
              exact ih (i + 1) none (by simp) (by omega) r hr
          | some s =>
              simp only [rleRanges, List.mem_cons] at hr
              rcases hr with rfl | hr
              · have hs : s < i := hst s rfl
                have hi : i ≤ 120 := by omega
                refine ⟨by positivity, ?_, ?_⟩
                · show (s : ℚ) / 120 < (i : ℚ) / 120
                  gcongr
                · show (i : ℚ) / 120 ≤ 1
                  rw [div_le_one (by norm_num)]
                  exact_mod_cast hi
              · exact ih (i + 1) none (by simp) (by omega) r hr

theorem bkmRanges_bound :
    ∀ (flags : List Bool) (i : ℕ), i + flags.length ≤ 200 →
      ∀ r ∈ bkmRanges flags i,
        0 ≤ r.start ∧ r.start < r.stop ∧ r.stop ≤ 1001 / 1000 := by
  intro flags
  induction flags with
  | nil => intro i _ r hr; simp [bkmRanges] at hr
  | cons f rest ih =>
      intro i hlen r hr
      simp only [List.length_cons] at hlen
      cases f with
      | true =>
          simp only [bkmRanges, if_true, List.mem_cons] at hr
          rcases hr with rfl | hr
          · have hi : i ≤ 199 := by omega
            refine ⟨by positivity, ?_, ?_⟩
            · show (i : ℚ) / 200 < ((i : ℚ) + 1.2) / 200
              gcongr
              norm_num
            · show ((i : ℚ) + 1.2) / 200 ≤ 1001 / 1000
              rw [div_le_iff (by norm_num)]
              have : (i : ℚ) ≤ 199 := by exact_mod_cast hi
              norm_num
              linarith
          · exact ih (i + 1) (by omega) r hr
      | false =>
          simp only [bkmRanges] at hr
          exact ih (i + 1) (by omega) r hr

theorem foldl_bkmSet_length (d : ℚ) :
    ∀ (bs : List ℚ) (flags : List Bool),
      (bs.foldl
        (fun flags time =>
          let idx : ℤ := min 199 ⌊time / d * 200⌋
          if 0 ≤ idx then flags.set idx.toNat true else flags)
        flags).length = flags.length := by
  intro bs
  induction bs with
  | nil => intro flags; rfl
  | cons t ts ih =>
      intro flags
      simp only [List.foldl_cons]
      rw [ih]
      split <;> simp

/-- C2 counterexample: a bookmark at the track end marks the last of the 200
bins, and the emitted range ends at (199 + 1.2) / 200 = 1.001, violating
end <= 1. -/
theorem c2_counterexample :
    buildBookmarkRanges [1] 1 = [⟨199 / 200, 1001 / 1000, RKind.bookmark⟩] ∧
    ¬ ((1001 : ℚ) / 1000 ≤ 1) := by
  constructor
  · with_unfolding_all rfl
  · norm_num

/-- C2 (amended): every range built by buildHighlightRanges and
buildBreakRanges satisfies 0 <= start < end <= 1; bookmark ranges satisfy
0 <= start < end <= 1.001 instead, because the 1.2-bin widening can push the
end of the last bin's range just past 1. -/
theorem c2_range_invariants (starts ends : List ℚ) (breaks : List (ℚ × ℚ))
    (bookmarks : List ℚ) (d : ℚ) (hd : 0 < d) :
    (∀ r ∈ buildHighlightRanges starts ends d,
      0 ≤ r.start ∧ r.start < r.stop ∧ r.stop ≤ 1) ∧
    (∀ r ∈ buildBreakRanges breaks d,
      0 ≤ r.start ∧ r.start < r.stop ∧ r.stop ≤ 1) ∧
    (∀ r ∈ buildBookmarkRanges bookmarks d,
      0 ≤ r.start ∧ r.start < r.stop ∧ r.stop ≤ 1001 / 1000) := by
  refine ⟨?_, ?_, ?_⟩
  · intro r hr
    unfold buildHighlightRanges at hr
    split_ifs at hr
    · simp at hr
    · refine rleRanges_bound _ 0 none (by simp) ?_ r hr
      rw [buildFlags_length]
  · intro r hr
    unfold buildBreakRanges at hr
    split_ifs at hr
    · simp at hr
    · rw [List.mem_filter] at hr
      obtain ⟨hmem, hpred⟩ := hr
      rw [List.mem_map] at hmem
      obtain ⟨p, hp, rfl⟩ := hmem
      exact ⟨le_min (le_max_right _ 0) zero_le_one, of_decide_eq_true hpred,
        min_le_right _ 1⟩
  · intro r hr
    unfold buildBookmarkRanges at hr
    split_ifs at hr
    · simp at hr
    · refine bkmRanges_bound _ 0 ?_ r hr
      rw [foldl_bkmSet_length]
      simp

/-- Witness for C2 at a break list scaled by duration 4: the produced break
range is [1/4, 1/2]. -/
theorem c2_range_invariants_witness :
    0 ≤ (1 / 4 : ℚ) ∧ (1 / 4 : ℚ) < 1 / 2 ∧ (1 / 2 : ℚ) ≤ 1 :=
  (c2_range_invariants [] [] [(1, 2)] [] 4 (by norm_num)).2.1
    ⟨1 / 4, 1 / 2, RKind.breakK⟩ (by
      rw [show buildBreakRanges [(1, 2)] 4 = [⟨1 / 4, 1 / 2, RKind.breakK⟩] from by
        with_unfolding_all rfl]
      exact List.mem_singleton.mpr rfl)

end Mosu
